import Mathlib

/-!
# Verification of the pound emulator execution core

Shallow embedding of the guest-physical-memory accessors (`src/pvm/guest.h`),
the synchronous-exception unit (`src/kvm/kvm.cpp`), the stage-1 MMU walker
(`src/kvm/mmu.cpp`, `core/arm64/mmu.cpp`) and the MMIO dispatch registry
(`src/kvm/mmio.cpp`) of the pound emulator, together with proofs about the
spec-level claims on those components.

Machine integers are modelled as `Nat` with explicit `% 2^64` (resp. masks)
at the points where the C code can wrap.  Fatal assertions (`assert` /
`PVM_ASSERT`, which abort the process) are modelled as a distinguished
outcome, never as a returned error code.
-/

namespace Pound

/-! ## Little-endian byte serialization

`memcpy` between a `uintN_t` and guest RAM on a little-endian host is modelled
by the following serialization helpers: byte `i` of the buffer is
`(v >>> (8*i)) &&& 0xFF`. -/

/-- The least-significant-first byte decomposition of `v` into `n` bytes. -/
def toBytesLE : Nat → Nat → List Nat
  | 0, _ => []
  | n + 1, v => v % 256 :: toBytesLE n (v / 256)

/-- Recompose a little-endian byte list into a natural number. -/
def fromBytesLE : List Nat → Nat
  | [] => 0
  | b :: bs => b + 256 * fromBytesLE bs

theorem toBytesLE_length (n v : Nat) : (toBytesLE n v).length = n := by
  induction n generalizing v with
  | zero => rfl
  | succ n ih => simp [toBytesLE, ih]

theorem toBytesLE_lt (n v : Nat) : ∀ b ∈ toBytesLE n v, b < 256 := by
  induction n generalizing v with
  | zero => simp [toBytesLE]
  | succ n ih =>
    intro b hb
    simp only [toBytesLE, List.mem_cons] at hb
    rcases hb with h | h
    · omega
    · exact ih _ _ h

theorem fromBytesLE_toBytesLE (n v : Nat) :
    fromBytesLE (toBytesLE n v) = v % 256 ^ n := by
  induction n generalizing v with
  | zero => simp [toBytesLE, fromBytesLE, Nat.mod_one]
  | succ n ih =>
    simp only [toBytesLE, fromBytesLE, ih]
    rw [pow_succ, mul_comm (256 ^ n) 256, Nat.mod_mul]

theorem toBytesLE_fromBytesLE (l : List Nat) (h : ∀ b ∈ l, b < 256) :
    toBytesLE l.length (fromBytesLE l) = l := by
  induction l with
  | nil => rfl
  | cons b bs ih =>
    have hb : b < 256 := h b (List.mem_cons_self b bs)
    simp only [List.length_cons, toBytesLE, fromBytesLE]
    have h1 : (b + 256 * fromBytesLE bs) % 256 = b := by omega
    have h2 : (b + 256 * fromBytesLE bs) / 256 = fromBytesLE bs := by omega
    rw [h1, h2, ih fun x hx => h x (List.mem_cons_of_mem _ hx)]

theorem fromBytesLE_lt (l : List Nat) (h : ∀ b ∈ l, b < 256) :
    fromBytesLE l < 256 ^ l.length := by
  induction l with
  | nil => simp [fromBytesLE]
  | cons b bs ih =>
    have hb : b < 256 := h b (List.mem_cons_self b bs)
    have := ih fun x hx => h x (List.mem_cons_of_mem _ hx)
    simp only [fromBytesLE, List.length_cons, pow_succ]
    calc b + 256 * fromBytesLE bs < 256 + 256 * fromBytesLE bs := by omega
    _ = 256 * (fromBytesLE bs + 1) := by ring
    _ ≤ 256 * 256 ^ bs.length := by
        exact Nat.mul_le_mul_left 256 (by omega)
    _ = 256 ^ bs.length * 256 := by ring

/-- Byte swap of an `n`-byte value, as done by `bswap_16/32/64` from
`endian.h`: reverse the little-endian byte serialization. -/
def bswap (n v : Nat) : Nat := fromBytesLE (toBytesLE n v).reverse

theorem bswap_lt (n v : Nat) : bswap n v < 256 ^ n := by
  have h := fromBytesLE_lt (toBytesLE n v).reverse
    (by intro b hb; exact toBytesLE_lt n v b (List.mem_reverse.mp hb))
  simpa [toBytesLE_length] using h

theorem bswap_bswap (n v : Nat) (hv : v < 256 ^ n) : bswap n (bswap n v) = v := by
  unfold bswap
  have h1 : toBytesLE n (fromBytesLE (toBytesLE n v).reverse)
      = (toBytesLE n v).reverse := by
    have hl : (toBytesLE n v).reverse.length = n := by
      simp [toBytesLE_length]
    have := toBytesLE_fromBytesLE (toBytesLE n v).reverse
      (by intro b hb; exact toBytesLE_lt n v b (List.mem_reverse.mp hb))
    rwa [hl] at this
  rw [h1, List.reverse_reverse, fromBytesLE_toBytesLE, Nat.mod_eq_of_lt hv]

/-! ## Guest physical memory (`src/pvm/guest.h`)

The descriptor `guest_memory_t` is a `{base, size}` pair over a host buffer;
we model the buffer contents as a list of bytes whose length is the `size`
field (which `guest_memory_create` sets to the length of the backing block).
-/

/-- Struct `guest_memory_t`: guest physical RAM contents; `size` is `data.length`. -/
structure guest_memory where
  data : List Nat
deriving Repr, DecidableEq

/-- Enum `guest_mem_access_result_t` from `guest.h`. -/
inductive guest_mem_access_result
  /-- Variant `GUEST_MEM_ACCESS_OK`. -/
  | ok
  /-- Variant `GUEST_MEM_ACCESS_FAULT_UNALIGNED`. -/
  | faultUnaligned
  /-- Variant `GUEST_MEM_ACCESS_FAULT_BOUNDARY`. -/
  | faultBoundary
  /-- Variant `GUEST_MEM_ACCESS_ERROR_INTERNAL`. -/
  | errorInternal
deriving Repr, DecidableEq

/-- Macro `HOST_IS_LITTLE_ENDIAN` is defined nowhere in the tree, so in the
preprocessor conditional `#if HOST_IS_LITTLE_ENDIAN != GUEST_IS_LITTLE_ENDIAN`
it evaluates to `0`, while `GUEST_IS_LITTLE_ENDIAN` is `1` (`endian.h`);
the `bswap` branch of every multi-byte accessor is therefore compiled in. -/
def host_guest_endian_differ : Bool := true

/-- The conditional byte swap every multi-byte accessor applies. -/
def guest_mem_swap (n v : Nat) : Nat :=
  if host_guest_endian_differ then bswap n v else v

/-- Function `guest_mem_readb`: bounds check `gpa >= memory->size`, then `*hva`. -/
def guest_mem_readb (memory : guest_memory) (gpa : Nat) :
    guest_mem_access_result × Option Nat :=
  if gpa ≥ memory.data.length then (.faultBoundary, none)
  else (.ok, some (memory.data.getD gpa 0))

/-- The shared shape of `guest_mem_readw/readl/readq` for an `n`-byte width:
the bounds check is the uint64 computation `gpa > memory->size - n` (which
wraps when `size < n`), then the alignment check, then a `memcpy` and the
conditional byte swap. -/
def guest_mem_read_n (n : Nat) (memory : guest_memory) (gpa : Nat) :
    guest_mem_access_result × Option Nat :=
  if gpa > (memory.data.length + (2 ^ 64 - n)) % 2 ^ 64 then (.faultBoundary, none)
  else if gpa &&& (n - 1) ≠ 0 then (.faultUnaligned, none)
  else (.ok, some (guest_mem_swap n (fromBytesLE ((memory.data.drop gpa).take n))))

/-- Function `guest_mem_readw` (16-bit). Alignment check `(gpa & 1) != 0`. -/
def guest_mem_readw (memory : guest_memory) (gpa : Nat) :
    guest_mem_access_result × Option Nat :=
  guest_mem_read_n 2 memory gpa

/-- Function `guest_mem_readl` (32-bit). Alignment check `(gpa & 3) != 0`. -/
def guest_mem_readl (memory : guest_memory) (gpa : Nat) :
    guest_mem_access_result × Option Nat :=
  guest_mem_read_n 4 memory gpa

/-- Function `guest_mem_readq` (64-bit). Alignment check `(gpa & 7) != 0`. -/
def guest_mem_readq (memory : guest_memory) (gpa : Nat) :
    guest_mem_access_result × Option Nat :=
  guest_mem_read_n 8 memory gpa

/-- Function `guest_mem_writeb`: bounds check `gpa >= memory->size`, then `*hva = val`. -/
def guest_mem_writeb (memory : guest_memory) (gpa : Nat) (val : Nat) :
    guest_mem_access_result × guest_memory :=
  if gpa ≥ memory.data.length then (.faultBoundary, memory)
  else (.ok, ⟨memory.data.set gpa val⟩)

/-- The shared shape of `guest_mem_writew/writel/writeq` for an `n`-byte
width: same bounds and alignment checks as the reads, then the conditional
byte swap followed by a `memcpy` into the buffer. -/
def guest_mem_write_n (n : Nat) (memory : guest_memory) (gpa : Nat) (val : Nat) :
    guest_mem_access_result × guest_memory :=
  if gpa > (memory.data.length + (2 ^ 64 - n)) % 2 ^ 64 then (.faultBoundary, memory)
  else if gpa &&& (n - 1) ≠ 0 then (.faultUnaligned, memory)
  else (.ok, ⟨memory.data.take gpa
      ++ toBytesLE n (guest_mem_swap n val)
      ++ memory.data.drop (gpa + n)⟩)

/-- Function `guest_mem_writew` (16-bit). -/
def guest_mem_writew (memory : guest_memory) (gpa : Nat) (val : Nat) :
    guest_mem_access_result × guest_memory :=
  guest_mem_write_n 2 memory gpa val

/-- Function `guest_mem_writel` (32-bit). -/
def guest_mem_writel (memory : guest_memory) (gpa : Nat) (val : Nat) :
    guest_mem_access_result × guest_memory :=
  guest_mem_write_n 4 memory gpa val

/-- Function `guest_mem_writeq` (64-bit). -/
def guest_mem_writeq (memory : guest_memory) (gpa : Nat) (val : Nat) :
    guest_mem_access_result × guest_memory :=
  guest_mem_write_n 8 memory gpa val

/-! ## vCPU architectural state (`src/pvm/pvm.h` / `kvm.h`)

All 64-bit registers are `Nat` values below `2^64`; `pstate` and the other
`uint32_t` fields are below `2^32`.  The bounds are stated as hypotheses of
the theorems that need them rather than baked into the structure. -/

/-- Struct `pvm_vcpu_t` (identical to `kvm_vcpu_t` up to the project rename). -/
structure pvm_vcpu where
  r : List Nat        -- general-purpose registers X0..X31
  pc : Nat
  cntfreq_el0 : Nat
  cntpct_el0 : Nat
  cntvct_el0 : Nat
  cntv_cval_el0 : Nat
  pmccntr_el0 : Nat
  tpidr_el0 : Nat
  tpidrro_el0 : Nat
  elr_el1 : Nat
  esr_el1 : Nat
  far_el1 : Nat
  sctlr_el1 : Nat
  spsr_el1 : Nat
  tcr_el1 : Nat
  ttbr0_el1 : Nat
  ttbr1_el1 : Nat
  vbar_el1 : Nat
  ctr_el0 : Nat
  cntv_ctl_el0 : Nat
  dczid_el0 : Nat
  pmcr_el0 : Nat
  pstate : Nat        -- uint32_t
deriving Repr, DecidableEq

/-- Constant `EC_DATA_ABORT` = `0b100101`. -/
def EC_DATA_ABORT : Nat := 37

/-- Constant `EC_DATA_ABORT_LOWER_EL` = `0b100100`. -/
def EC_DATA_ABORT_LOWER_EL : Nat := 36

/-- Constant `PSTATE_EL1H` = `0b0101`. -/
def PSTATE_EL1H : Nat := 5

/-- Function `take_synchronous_exception` from `src/kvm/kvm.cpp`.

`none` models a `PVM_ASSERT` failure, which aborts the process.  The first
assertion's mask is written `11000000` (decimal, a missing `0b` prefix) in the
source; because `exception_class` is a `uint8_t`, only the low byte `0xC0` of
that decimal constant participates in the AND, so the check coincides with
the intended `ec & 0xC0`.  We model it as `&&& 192` (valid for `ec < 256`).

The `pstate` update follows the source exactly: `pstate` is `uint32_t`, so
`~0xF0000000` is `0x0FFFFFFF` and `~0xF` is `0xFFFFFFF0`. -/
def take_synchronous_exception (vcpu : pvm_vcpu) (exception_class iss faulting_address : Nat) :
    Option pvm_vcpu :=
  if exception_class &&& 192 ≠ 0 then none
  else if iss &&& 0xFE000000 ≠ 0 then none
  else some { vcpu with
    elr_el1 := vcpu.pc
    spsr_el1 := vcpu.pstate
    esr_el1 := (exception_class <<< 26) ||| (1 <<< 25) ||| iss
    far_el1 :=
      if exception_class = EC_DATA_ABORT ∨ exception_class = EC_DATA_ABORT_LOWER_EL then
        faulting_address
      else vcpu.far_el1
    pstate := (((vcpu.pstate &&& 0x0FFFFFFF) ||| ((1 <<< 7) ||| (1 <<< 6) ||| (1 <<< 8)))
               &&& 0xFFFFFFF0) ||| PSTATE_EL1H }

/-! ## Stage-1 MMU (`src/kvm/mmu.cpp`)

`mmu_gva_to_gpa` returns `int` (0 = success with `*out_gpa` set, -1 = fault)
and can also die on a fatal `assert`.  The three outcomes are modelled by
`MmuResult`:
* `ok gpa` — the function returns 0 having stored `gpa` in `*out_gpa`;
* `fault`  — the function returns -1;
* `assertFail` — an `assert(...)` fires (reserved TG0/TG1 encoding, or a
  block descriptor), aborting the process: nothing is returned to the caller.
-/

/-- Outcome of the translation walk (see the section comment). -/
inductive MmuResult
  | ok (gpa : Nat)
  | fault
  | assertFail
deriving Repr, DecidableEq

/-- The walker's descriptor load: `guest_mem_readq(memory, addr, &descriptor)`
with the return value ignored and `descriptor` initialized to 0, so a failed
read leaves the descriptor 0 (which the walk then treats as invalid). -/
def mmu_fetch_descriptor (memory : guest_memory) (addr : Nat) : Nat :=
  (guest_mem_readq memory addr).2.getD 0

/-- The `switch (level)` selecting which shift extracts this level's index. -/
def mmu_level_shift (l0s l1s l2s l3s level : Nat) : Nat :=
  if level = 0 then l0s
  else if level = 1 then l1s
  else if level = 2 then l2s
  else l3s

/-- The walk loop of `mmu_gva_to_gpa` (`for (level = starting_level;
level <= page_table_levels; ++level)` with `page_table_levels = 3`).

The first argument of the recursion is fuel bounding the number of loop
iterations; the loop runs at most 4 times (levels `starting_level..3`) plus
one final condition check, so a fuel of 5 makes the recursion exact. -/
def mmu_walk (memory : guest_memory) (gva offset_bits index_bits l0s l1s l2s l3s : Nat) :
    Nat → Nat → Nat → MmuResult
  | 0, _, _ => .fault
  | fuel + 1, table_address, level =>
    if level > 3 then .fault
    else
      let shift := mmu_level_shift l0s l1s l2s l3s level
      let level_index := (gva >>> shift) &&& (2 ^ index_bits - 1)
      let descriptor := mmu_fetch_descriptor memory ((table_address + level_index * 8) % 2 ^ 64)
      let offset_mask := 2 ^ offset_bits - 1
      if descriptor &&& 1 = 0 then .fault
      else if level = 3 ∧ descriptor &&& 3 = 3 then
        .ok ((descriptor &&& (2 ^ 64 - 1 - offset_mask)) ||| (gva &&& offset_mask))
      else if descriptor &&& 3 = 3 then
        mmu_walk memory gva offset_bits index_bits l0s l1s l2s l3s fuel
          (descriptor &&& (2 ^ 64 - 1 - offset_mask)) (level + 1)
      else if descriptor &&& 3 = 1 then .assertFail
      else
        mmu_walk memory gva offset_bits index_bits l0s l1s l2s l3s fuel
          table_address (level + 1)

/-- Trailing-zero count of a 64-bit value, the `COUNT_TRAILING_ZEROS`
wrapper over `__builtin_ctzll`: the recursion depth is bounded by the
64-bit width. -/
def ctz_aux : Nat → Nat → Nat
  | 0, _ => 0
  | fuel + 1, x => if x % 2 = 1 ∨ x = 0 then 0 else ctz_aux fuel (x / 2) + 1

/-- Macro `COUNT_TRAILING_ZEROS` from `src/kvm/mmu.cpp`. -/
def COUNT_TRAILING_ZEROS (x : Nat) : Nat := ctz_aux 64 x

/-- The granule-independent tail of `mmu_gva_to_gpa`: offset/index bit
computation, per-level shifts, starting-level selection, and the walk. -/
def mmu_translate (memory : guest_memory)
    (gva virtual_address_size granule_size table_address : Nat) : MmuResult :=
  let offset_bits := COUNT_TRAILING_ZEROS granule_size
  let page_table_index_bits := offset_bits - 3
  let l3_shift := offset_bits
  let l2_shift := l3_shift + page_table_index_bits
  let l1_shift := l2_shift + page_table_index_bits
  let l0_shift := l1_shift + page_table_index_bits
  let starting_level :=
    if granule_size = 2 ^ 12 then
      if virtual_address_size > l0_shift then 0
      else if virtual_address_size > l1_shift then 1
      else 2
    else
      if virtual_address_size > l1_shift then 1
      else 2
  mmu_walk memory gva offset_bits page_table_index_bits l0_shift l1_shift l2_shift l3_shift
    5 table_address starting_level

/-- Function `mmu_gva_to_gpa` from `src/kvm/mmu.cpp`.

The upper/lower-half dispatch reproduces the source condition
`if ((gva << 63) & 1)` literally (a 64-bit left shift followed by `& 1`).
`top_bits_mask` is `~0ULL << virtual_address_size` reduced modulo `2^64`
(for `TxSZ = 0` the C shift by 64 is undefined behaviour; the reduction
models the all-clear result).  TG0/TG1 decode follows the two different
granule encodings, with the reserved values hitting an `assert`. -/
def mmu_gva_to_gpa (vcpu : pvm_vcpu) (memory : guest_memory) (gva : Nat) : MmuResult :=
  if vcpu.sctlr_el1 &&& 1 = 0 then .ok gva
  else
    let T0SZ := vcpu.tcr_el1 &&& 63
    let T1SZ := (vcpu.tcr_el1 >>> 16) &&& 63
    if (((gva <<< 63) % 2 ^ 64) &&& 1) ≠ 0 then
      -- upper (kernel) half: TTBR1
      let virtual_address_size := 64 - T1SZ
      let top_bits_mask := ((2 ^ 64 - 1) <<< virtual_address_size) % 2 ^ 64
      if gva &&& top_bits_mask ≠ vcpu.ttbr1_el1 &&& top_bits_mask then .fault
      else
        let TG1 := (vcpu.tcr_el1 >>> 30) &&& 3
        if TG1 = 1 then mmu_translate memory gva virtual_address_size (2 ^ 14) vcpu.ttbr1_el1
        else if TG1 = 2 then mmu_translate memory gva virtual_address_size (2 ^ 12) vcpu.ttbr1_el1
        else if TG1 = 3 then mmu_translate memory gva virtual_address_size (2 ^ 16) vcpu.ttbr1_el1
        else .assertFail
    else
      -- lower (user) half: TTBR0
      let virtual_address_size := 64 - T0SZ
      let top_bits_mask := ((2 ^ 64 - 1) <<< virtual_address_size) % 2 ^ 64
      if gva &&& top_bits_mask ≠ 0 then .fault
      else
        let TG0 := (vcpu.tcr_el1 >>> 14) &&& 3
        if TG0 = 0 then mmu_translate memory gva virtual_address_size (2 ^ 12) vcpu.ttbr0_el1
        else if TG0 = 1 then mmu_translate memory gva virtual_address_size (2 ^ 16) vcpu.ttbr0_el1
        else if TG0 = 2 then mmu_translate memory gva virtual_address_size (2 ^ 14) vcpu.ttbr0_el1
        else .assertFail

/-- Function `mmu_gva_to_gpa` from `core/arm64/mmu.cpp`: identity translation when
`SCTLR_EL1.M` is clear, otherwise `-1`. -/
def arm64_mmu_gva_to_gpa (vcpu : pvm_vcpu) (gva : Nat) : MmuResult :=
  if vcpu.sctlr_el1 &&& 1 = 0 then .ok gva
  else .fault

/-! ## MMIO registry (`src/kvm/mmio.cpp`, `src/kvm/mmio.h`)

The database holds two parallel vectors.  Handlers are function pointers in
the source; we model each slot as an `Option Nat` identifier (`none` is a
NULL pointer) and pass the semantics of invoking an identifier to dispatch
as an explicit function argument, since the claims only require knowing
*which* callback is invoked and what it is given.

The `assert`s on non-NULL pointers have no content here, and the capacity
assertion `size + 1 <= MMIO_REGIONS` (a 20-region limit that aborts the
process when exceeded) is not modelled: it never modifies the database. -/

/-- Struct `mmio_range_t`: half-open `[gpa_base, gpa_end)`. -/
structure mmio_range where
  gpa_base : Nat
  gpa_end : Nat
deriving Repr, DecidableEq

/-- Struct `mmio_handler_t`: read/write callback slots (`none` = NULL pointer). -/
structure mmio_handler where
  read : Option Nat
  write : Option Nat
deriving Repr, DecidableEq

/-- Struct `mmio_db_t`: parallel `handlers` / `address_ranges` vectors. -/
structure mmio_db where
  handlers : List mmio_handler
  address_ranges : List mmio_range
deriving Repr, DecidableEq

/-- Code `MMIO_SUCCESS`. -/
def MMIO_SUCCESS : Int := 0
/-- Code `EADDRESS_OVERLAP`. -/
def EADDRESS_OVERLAP : Int := -1
/-- Code `ENOT_HANDLED`. -/
def ENOT_HANDLED : Int := -2
/-- Code `EACCESS_DENIED`. -/
def EACCESS_DENIED : Int := -3

/-- The `std::lower_bound` search over `address_ranges` with `mmio_compare_ranges`
(compare by `gpa_base`): the index of the first element whose `gpa_base` is
not less than the key's.  On the sorted vectors the registry maintains, the
linear characterization below is exactly the binary search's contract. -/
def mmio_lower_bound : List mmio_range → mmio_range → Nat
  | [], _ => 0
  | r :: rs, key => if r.gpa_base < key.gpa_base then mmio_lower_bound rs key + 1 else 0

/-- Function `mmio_db_register`: find the insertion point, reject on overlap with the
predecessor or the successor, else insert into both parallel vectors. -/
def mmio_db_register (db : mmio_db) (range : mmio_range) (handler : mmio_handler) :
    Int × mmio_db :=
  let i := mmio_lower_bound db.address_ranges range
  if 0 < i ∧ range.gpa_base < (db.address_ranges.getD (i - 1) ⟨0, 0⟩).gpa_end then
    (EADDRESS_OVERLAP, db)
  else if i < db.address_ranges.length ∧
      (db.address_ranges.getD i ⟨0, 0⟩).gpa_base < range.gpa_end then
    (EADDRESS_OVERLAP, db)
  else
    (MMIO_SUCCESS,
      ⟨db.handlers.insertIdx i handler, db.address_ranges.insertIdx i range⟩)

/-- The `std::upper_bound` search over `address_ranges` with `mmio_compare_addresses`
and the search key `{gpa_base = gpa}`: the index of the first element whose
`gpa_base` strictly exceeds `gpa` (linear characterization, exact on the
sorted vectors the registry maintains). -/
def mmio_upper_bound : List mmio_range → Nat → Nat
  | [], _ => 0
  | r :: rs, gpa => if gpa < r.gpa_base then 0 else mmio_upper_bound rs gpa + 1

/-- Function `mmio_db_dispatch_write`.  Here `run_write hid gpa data len` gives the data
buffer after invoking the callback with identifier `hid`; the result is the
status code, the data buffer after the call, and which callback (if any) was
invoked.  The database is a read-only input: the source function performs no
store through `db`. -/
def mmio_db_dispatch_write (db : mmio_db) (gpa : Nat)
    (run_write : Nat → Nat → List Nat → Nat → List Nat) (data : List Nat) (len : Nat) :
    Int × List Nat × Option Nat :=
  let it := mmio_upper_bound db.address_ranges gpa
  if it = 0 then (ENOT_HANDLED, data, none)
  else
    let candidate := db.address_ranges.getD (it - 1) ⟨0, 0⟩
    if candidate.gpa_base ≤ gpa ∧ gpa < candidate.gpa_end then
      match (db.handlers.getD (it - 1) ⟨none, none⟩).write with
      | none => (EACCESS_DENIED, data, none)
      | some hid => (MMIO_SUCCESS, run_write hid gpa data len, some hid)
    else (ENOT_HANDLED, data, none)

/-- Function `mmio_db_dispatch_read`, symmetric to the write dispatcher. -/
def mmio_db_dispatch_read (db : mmio_db) (gpa : Nat)
    (run_read : Nat → Nat → List Nat → Nat → List Nat) (data : List Nat) (len : Nat) :
    Int × List Nat × Option Nat :=
  let it := mmio_upper_bound db.address_ranges gpa
  if it = 0 then (ENOT_HANDLED, data, none)
  else
    let candidate := db.address_ranges.getD (it - 1) ⟨0, 0⟩
    if candidate.gpa_base ≤ gpa ∧ gpa < candidate.gpa_end then
      match (db.handlers.getD (it - 1) ⟨none, none⟩).read with
      | none => (EACCESS_DENIED, data, none)
      | some hid => (MMIO_SUCCESS, run_read hid gpa data len, some hid)
    else (ENOT_HANDLED, data, none)

/-- Predicate: `gpa` lies in the half-open range: `base <= gpa < end`. -/
def mmio_contains (r : mmio_range) (gpa : Nat) : Prop :=
  r.gpa_base ≤ gpa ∧ gpa < r.gpa_end

instance (r : mmio_range) (gpa : Nat) : Decidable (mmio_contains r gpa) :=
  inferInstanceAs (Decidable (_ ∧ _))

/-- The registry invariant: parallel vectors of equal length, every stored
range non-empty, and ranges sorted with pairwise-disjoint intervals
(`a.gpa_end ≤ b.gpa_base` for `a` before `b`). -/
def mmio_db_inv (db : mmio_db) : Prop :=
  db.handlers.length = db.address_ranges.length ∧
  (∀ r ∈ db.address_ranges, r.gpa_base < r.gpa_end) ∧
  db.address_ranges.Pairwise (fun a b => a.gpa_end ≤ b.gpa_base)

/-- Folding a sequence of `register` calls over a database. -/
def mmio_register_all (db : mmio_db) (calls : List (mmio_range × mmio_handler)) : mmio_db :=
  calls.foldl (fun d c => (mmio_db_register d c.1 c.2).2) db

/-- The empty registry. -/
def mmio_db_empty : mmio_db := ⟨[], []⟩

/-! ## Concrete states used by witnesses and counterexamples -/

/-- A vCPU with every register zero (MMU disabled). -/
def vcpu_reset : pvm_vcpu :=
  ⟨List.replicate 32 0, 0, 0, 0, 0, 0, 0, 0, 0, 0, 0, 0, 0, 0, 0, 0, 0, 0, 0, 0, 0, 0, 0⟩

/-- The vCPU of the spec's exception-unit scenario:
`pc = 0x1000`, `pstate = 0x6000_0000`, everything else zero. -/
def vcpu_exc_test : pvm_vcpu :=
  { vcpu_reset with pc := 0x1000, pstate := 0x60000000 }

/-! ## General helper lemmas -/

/-- Low bits of `a` against a mask with only high bits: the AND is zero. -/
theorem and_high_eq_zero {a M n : Nat} (ha : a < 2 ^ n) (hM : M % 2 ^ n = 0) :
    a &&& M = 0 := by
  apply Nat.eq_of_testBit_eq
  intro i
  simp only [Nat.testBit_and, Nat.zero_testBit]
  by_cases hi : i < n
  · have : M.testBit i = (M % 2 ^ n).testBit i := by
      rw [Nat.testBit_mod_two_pow]
      simp [hi]
    rw [this, hM]
    simp
  · have : a.testBit i = false :=
      Nat.testBit_lt_two_pow (lt_of_lt_of_le ha (Nat.pow_le_pow_right (by omega) (by omega)))
    simp [this]

/-! ## C7 — MMU-disabled identity translation -/

/-- C7: for every vcpu whose `sctlr_el1` bit 0 is 0 and every gva, both
`mmu_gva_to_gpa` implementations succeed and return the gva unchanged. -/
theorem mmu_disabled_identity (vcpu : pvm_vcpu) (memory : guest_memory) (gva : Nat)
    (h : vcpu.sctlr_el1 % 2 = 0) :
    mmu_gva_to_gpa vcpu memory gva = .ok gva ∧
    arm64_mmu_gva_to_gpa vcpu gva = .ok gva := by
  have h1 : vcpu.sctlr_el1 &&& 1 = 0 := by rw [Nat.and_one_is_mod]; exact h
  constructor
  · simp [mmu_gva_to_gpa, h1]
  · simp [arm64_mmu_gva_to_gpa, h1]

/-- Witness for C7 at the reset vCPU and `gva = 0xDEADBEEF`. -/
theorem mmu_disabled_identity_witness :
    vcpu_reset.sctlr_el1 % 2 = 0 ∧
    (mmu_gva_to_gpa vcpu_reset ⟨[]⟩ 0xDEADBEEF = .ok 0xDEADBEEF ∧
     arm64_mmu_gva_to_gpa vcpu_reset 0xDEADBEEF = .ok 0xDEADBEEF) :=
  ⟨by decide, mmu_disabled_identity vcpu_reset ⟨[]⟩ 0xDEADBEEF (by decide)⟩

/-! ## C2 — synchronous exception entry -/

/-- C2: for every vcpu, `exception_class < 64` and `iss < 2^25`,
`take_synchronous_exception` records `elr_el1 = pc`, `spsr_el1 = pstate`,
`esr_el1 = (ec << 26) | (1 << 25) | iss`, sets `far_el1` to the faulting
address for the two data-abort classes, clears `pstate[31:28]`, sets
`pstate` bits 6, 7 and 8, and writes `0b0101` into `pstate[3:0]`. -/
theorem take_synchronous_exception_correct (vcpu : pvm_vcpu)
    (ec iss fa : Nat) (hec : ec < 64) (hiss : iss < 2 ^ 25) :
    ∃ v', take_synchronous_exception vcpu ec iss fa = some v' ∧
      v'.elr_el1 = vcpu.pc ∧
      v'.spsr_el1 = vcpu.pstate ∧
      v'.esr_el1 = (ec <<< 26) ||| (1 <<< 25) ||| iss ∧
      ((ec = 37 ∨ ec = 36) → v'.far_el1 = fa) ∧
      v'.pstate >>> 28 = 0 ∧
      v'.pstate.testBit 6 = true ∧
      v'.pstate.testBit 7 = true ∧
      v'.pstate.testBit 8 = true ∧
      v'.pstate % 16 = 5 := by
  have hec0 : ec &&& 192 = 0 := by
    have h64 : ∀ e < 64, e &&& 192 = 0 := by decide
    exact h64 ec hec
  have hiss0 : iss &&& 0xFE000000 = 0 :=
    and_high_eq_zero hiss (by norm_num)
  refine ⟨{ vcpu with
      elr_el1 := vcpu.pc
      spsr_el1 := vcpu.pstate
      esr_el1 := (ec <<< 26) ||| (1 <<< 25) ||| iss
      far_el1 :=
        if ec = EC_DATA_ABORT ∨ ec = EC_DATA_ABORT_LOWER_EL then fa else vcpu.far_el1
      pstate := (((vcpu.pstate &&& 0x0FFFFFFF) ||| ((1 <<< 7) ||| (1 <<< 6) ||| (1 <<< 8)))
                 &&& 0xFFFFFFF0) ||| PSTATE_EL1H },
    ?_, rfl, rfl, rfl, ?_, ?_, ?_, ?_, ?_, ?_⟩
  · rw [take_synchronous_exception, if_neg (by simp [hec0]), if_neg (by simp [hiss0])]
  · intro hcase
    have : ec = EC_DATA_ABORT ∨ ec = EC_DATA_ABORT_LOWER_EL := by
      simpa [EC_DATA_ABORT, EC_DATA_ABORT_LOWER_EL] using hcase
    simp only [this, if_pos]
  · -- pstate[31:28] cleared: the new pstate is below 2^28
    have h1 : vcpu.pstate &&& 0x0FFFFFFF < 2 ^ 28 :=
      Nat.and_lt_two_pow _ (by norm_num)
    have h2 : (vcpu.pstate &&& 0x0FFFFFFF) ||| (1 <<< 7 ||| 1 <<< 6 ||| 1 <<< 8) < 2 ^ 28 :=
      Nat.or_lt_two_pow h1 (by decide)
    have h3 : ((vcpu.pstate &&& 0x0FFFFFFF) ||| (1 <<< 7 ||| 1 <<< 6 ||| 1 <<< 8))
        &&& 0xFFFFFFF0 < 2 ^ 28 := lt_of_le_of_lt Nat.and_le_left h2
    have h4 : (((vcpu.pstate &&& 0x0FFFFFFF) ||| (1 <<< 7 ||| 1 <<< 6 ||| 1 <<< 8))
        &&& 0xFFFFFFF0) ||| PSTATE_EL1H < 2 ^ 28 :=
      Nat.or_lt_two_pow h3 (by norm_num [PSTATE_EL1H])
    rw [Nat.shiftRight_eq_div_pow]
    exact Nat.div_eq_of_lt h4
  · simp [Nat.testBit_or, Nat.testBit_and, PSTATE_EL1H,
      show Nat.testBit 448 6 = true from by decide,
      show Nat.testBit 4294967280 6 = true from by decide]
  · simp [Nat.testBit_or, Nat.testBit_and, PSTATE_EL1H,
      show Nat.testBit 448 7 = true from by decide,
      show Nat.testBit 4294967280 7 = true from by decide]
  · simp [Nat.testBit_or, Nat.testBit_and, PSTATE_EL1H,
      show Nat.testBit 448 8 = true from by decide,
      show Nat.testBit 4294967280 8 = true from by decide]
  · have hmod := Nat.and_pow_two_sub_one_eq_mod
      (((((vcpu.pstate &&& 0x0FFFFFFF) ||| (1 <<< 7 ||| 1 <<< 6 ||| 1 <<< 8))
        &&& 0xFFFFFFF0) ||| PSTATE_EL1H)) 4
    rw [show (2 ^ 4 - 1 : Nat) = 15 from rfl] at hmod
    rw [show (2 ^ 4 : Nat) = 16 from rfl] at hmod
    rw [← hmod, Nat.and_distrib_right, Nat.and_assoc,
      show (0xFFFFFFF0 &&& 15 : Nat) = 0 from by decide, Nat.and_zero,
      show (PSTATE_EL1H &&& 15 : Nat) = 5 from by decide]
    simp

/-- Witness for C2 at the spec scenario: `ec = DATA_ABORT`, `iss = 7`,
`faulting_address = 0x4000`. -/
theorem take_synchronous_exception_correct_witness :
    ∃ v', take_synchronous_exception vcpu_exc_test 37 7 0x4000 = some v' ∧
      v'.elr_el1 = vcpu_exc_test.pc ∧
      v'.spsr_el1 = vcpu_exc_test.pstate ∧
      v'.esr_el1 = (37 <<< 26) ||| (1 <<< 25) ||| 7 ∧
      ((37 = 37 ∨ 37 = 36) → v'.far_el1 = 0x4000) ∧
      v'.pstate >>> 28 = 0 ∧
      v'.pstate.testBit 6 = true ∧
      v'.pstate.testBit 7 = true ∧
      v'.pstate.testBit 8 = true ∧
      v'.pstate % 16 = 5 :=
  take_synchronous_exception_correct vcpu_exc_test 37 7 0x4000
    (by decide) (by decide)

/-! ## C9 — exception entry frame conditions -/

/-- C9: whenever `take_synchronous_exception` completes, `far_el1` is
unchanged unless the class is one of the two data aborts, and `pc`, the
general-purpose registers and the translation-control registers
(`vbar_el1`, `sctlr_el1`, `tcr_el1`, `ttbr0_el1`, `ttbr1_el1`) are never
modified. -/
theorem take_synchronous_exception_frame (vcpu : pvm_vcpu) (ec iss fa : Nat)
    (v' : pvm_vcpu) (h : take_synchronous_exception vcpu ec iss fa = some v') :
    ((ec ≠ 37 ∧ ec ≠ 36) → v'.far_el1 = vcpu.far_el1) ∧
    v'.pc = vcpu.pc ∧
    v'.r = vcpu.r ∧
    v'.vbar_el1 = vcpu.vbar_el1 ∧
    v'.sctlr_el1 = vcpu.sctlr_el1 ∧
    v'.tcr_el1 = vcpu.tcr_el1 ∧
    v'.ttbr0_el1 = vcpu.ttbr0_el1 ∧
    v'.ttbr1_el1 = vcpu.ttbr1_el1 := by
  rw [take_synchronous_exception] at h
  by_cases ha : ec &&& 192 ≠ 0
  · rw [if_pos ha] at h
    exact absurd h (by simp)
  · rw [if_neg ha] at h
    by_cases hb : iss &&& 0xFE000000 ≠ 0
    · rw [if_pos hb] at h
      exact absurd h (by simp)
    · rw [if_neg hb] at h
      have h' := Option.some.inj h
      subst h'
      refine ⟨?_, rfl, rfl, rfl, rfl, rfl, rfl, rfl⟩
      intro hne
      obtain ⟨h37, h36⟩ := hne
      have hcond : ¬(ec = EC_DATA_ABORT ∨ ec = EC_DATA_ABORT_LOWER_EL) := by
        simp only [EC_DATA_ABORT, EC_DATA_ABORT_LOWER_EL]
        omega
      simp [hcond]

/-- Witness for C9 at a non-data-abort class (`ec = 0x15`, an SVC). -/
theorem take_synchronous_exception_frame_witness :
    (take_synchronous_exception vcpu_exc_test 0x15 0 0 =
      some ((take_synchronous_exception vcpu_exc_test 0x15 0 0).getD vcpu_reset)) ∧
    (((0x15 : Nat) ≠ 37 ∧ (0x15 : Nat) ≠ 36) →
      ((take_synchronous_exception vcpu_exc_test 0x15 0 0).getD vcpu_reset).far_el1
        = vcpu_exc_test.far_el1) ∧
    ((take_synchronous_exception vcpu_exc_test 0x15 0 0).getD vcpu_reset).pc
      = vcpu_exc_test.pc :=
  ⟨by decide,
   (take_synchronous_exception_frame vcpu_exc_test 0x15 0 0 _ (by decide)).1,
   (take_synchronous_exception_frame vcpu_exc_test 0x15 0 0 _ (by decide)).2.1⟩

/-! ## C10 — dispatch failure is effect-free -/

/-- C10: whenever MMIO dispatch returns `ENOT_HANDLED` or `EACCESS_DENIED`,
no handler callback is invoked and the caller's data buffer is returned
unchanged (the registry itself is a read-only input of the dispatchers:
the source performs no store through `db`). -/
theorem mmio_dispatch_failure_frame (db : mmio_db) (gpa : Nat)
    (run_write run_read : Nat → Nat → List Nat → Nat → List Nat)
    (data : List Nat) (len : Nat) :
    (((mmio_db_dispatch_write db gpa run_write data len).1 = ENOT_HANDLED ∨
      (mmio_db_dispatch_write db gpa run_write data len).1 = EACCESS_DENIED) →
      (mmio_db_dispatch_write db gpa run_write data len).2.1 = data ∧
      (mmio_db_dispatch_write db gpa run_write data len).2.2 = none) ∧
    (((mmio_db_dispatch_read db gpa run_read data len).1 = ENOT_HANDLED ∨
      (mmio_db_dispatch_read db gpa run_read data len).1 = EACCESS_DENIED) →
      (mmio_db_dispatch_read db gpa run_read data len).2.1 = data ∧
      (mmio_db_dispatch_read db gpa run_read data len).2.2 = none) := by
  constructor
  · by_cases h1 : mmio_upper_bound db.address_ranges gpa = 0
    · simp only [mmio_db_dispatch_write, if_pos h1]
      simp
    · simp only [mmio_db_dispatch_write, if_neg h1]
      by_cases h2 :
        (db.address_ranges.getD (mmio_upper_bound db.address_ranges gpa - 1)
          ⟨0, 0⟩).gpa_base ≤ gpa ∧
        gpa < (db.address_ranges.getD (mmio_upper_bound db.address_ranges gpa - 1)
          ⟨0, 0⟩).gpa_end
      · rw [if_pos h2]
        cases hw : (db.handlers.getD (mmio_upper_bound db.address_ranges gpa - 1)
            ⟨none, none⟩).write with
        | none =>
          simp only [hw]
          simp
        | some hid =>
          simp only [hw]
          intro hstat
          rcases hstat with h' | h' <;>
            norm_num [ENOT_HANDLED, EACCESS_DENIED, MMIO_SUCCESS] at h'
      · rw [if_neg h2]
        simp
  · by_cases h1 : mmio_upper_bound db.address_ranges gpa = 0
    · simp only [mmio_db_dispatch_read, if_pos h1]
      simp
    · simp only [mmio_db_dispatch_read, if_neg h1]
      by_cases h2 :
        (db.address_ranges.getD (mmio_upper_bound db.address_ranges gpa - 1)
          ⟨0, 0⟩).gpa_base ≤ gpa ∧
        gpa < (db.address_ranges.getD (mmio_upper_bound db.address_ranges gpa - 1)
          ⟨0, 0⟩).gpa_end
      · rw [if_pos h2]
        cases hw : (db.handlers.getD (mmio_upper_bound db.address_ranges gpa - 1)
            ⟨none, none⟩).read with
        | none =>
          simp only [hw]
          simp
        | some hid =>
          simp only [hw]
          intro hstat
          rcases hstat with h' | h' <;>
            norm_num [ENOT_HANDLED, EACCESS_DENIED, MMIO_SUCCESS] at h'
      · rw [if_neg h2]
        simp

/-! ## C3 — out-of-range accesses fault with Boundary -/

/-- Boundary behaviour of the shared multi-byte accessor shape, for a
descriptor at least `n` bytes big: any access range sticking out past the
end is refused with the Boundary fault before anything else happens. -/
theorem guest_mem_n_boundary (n : Nat) (memory : guest_memory) (gpa v : Nat)
    (hn : 0 < n) (hn64 : n ≤ 2 ^ 64) (hsz : memory.data.length < 2 ^ 64)
    (hge : n ≤ memory.data.length) (hlt : memory.data.length < gpa + n) :
    (guest_mem_read_n n memory gpa).1 = .faultBoundary ∧
    (guest_mem_write_n n memory gpa v).1 = .faultBoundary := by
  have hkey : (memory.data.length + (2 ^ 64 - n)) % 2 ^ 64 = memory.data.length - n := by
    omega
  have hcond : gpa > (memory.data.length + (2 ^ 64 - n)) % 2 ^ 64 := by
    rw [hkey]; omega
  exact ⟨by rw [guest_mem_read_n, if_pos hcond],
         by rw [guest_mem_write_n, if_pos hcond]⟩

/-- C3 (amended): for every guest-memory descriptor *whose size is at least
`N`*, every width `N ∈ {1,2,4,8}` and every `gpa` with `[gpa, gpa+N)` not
entirely inside `[0, size)`, the typed accessors return the Boundary fault.
The size hypothesis is forced by the unsigned computation `size - N` in the
bounds check, which wraps around when `size < N`
(see `guest_mem_boundary_counterexample`). -/
theorem guest_mem_boundary_fault (memory : guest_memory) (gpa v : Nat)
    (hsz : memory.data.length < 2 ^ 64) :
    (1 ≤ memory.data.length → memory.data.length < gpa + 1 →
      (guest_mem_readb memory gpa).1 = .faultBoundary ∧
      (guest_mem_writeb memory gpa v).1 = .faultBoundary) ∧
    (2 ≤ memory.data.length → memory.data.length < gpa + 2 →
      (guest_mem_readw memory gpa).1 = .faultBoundary ∧
      (guest_mem_writew memory gpa v).1 = .faultBoundary) ∧
    (4 ≤ memory.data.length → memory.data.length < gpa + 4 →
      (guest_mem_readl memory gpa).1 = .faultBoundary ∧
      (guest_mem_writel memory gpa v).1 = .faultBoundary) ∧
    (8 ≤ memory.data.length → memory.data.length < gpa + 8 →
      (guest_mem_readq memory gpa).1 = .faultBoundary ∧
      (guest_mem_writeq memory gpa v).1 = .faultBoundary) := by
  refine ⟨fun _ hlt => ?_, fun hge hlt => ?_, fun hge hlt => ?_, fun hge hlt => ?_⟩
  · constructor
    · rw [guest_mem_readb, if_pos (by omega)]
    · rw [guest_mem_writeb, if_pos (by omega)]
  · exact guest_mem_n_boundary 2 memory gpa v (by norm_num) (by norm_num) hsz hge hlt
  · exact guest_mem_n_boundary 4 memory gpa v (by norm_num) (by norm_num) hsz hge hlt
  · exact guest_mem_n_boundary 8 memory gpa v (by norm_num) (by norm_num) hsz hge hlt

/-- Witness for C3 (amended) on a 10-byte RAM at the out-of-range
(and in-particular-interval) address `gpa = 9` with `N = 2`. -/
theorem guest_mem_boundary_fault_witness :
    (10 : Nat) < 2 ^ 64 ∧
    ((guest_mem_readw ⟨List.replicate 10 0⟩ 9).1 = .faultBoundary ∧
     (guest_mem_writew ⟨List.replicate 10 0⟩ 9 0xAB).1 = .faultBoundary) :=
  ⟨by norm_num,
   (guest_mem_boundary_fault ⟨List.replicate 10 0⟩ 9 0xAB
      (by norm_num)).2.1 (by norm_num) (by norm_num)⟩

/-- Counterexample to C3 as stated: on a 1-byte descriptor, the 16-bit
accessors at `gpa = 0` access the out-of-bounds range `[0, 2)` yet do NOT
return the Boundary fault (the `uint64` bounds check `gpa > size - 2`
wraps around and passes), falsifying the claim's universal quantification
over all descriptors. -/
theorem guest_mem_boundary_counterexample :
    (guest_mem_readw ⟨[0]⟩ 0).1 ≠ .faultBoundary ∧
    (guest_mem_writew ⟨[0]⟩ 0 0).1 ≠ .faultBoundary := by
  constructor <;> decide

/-! ## C6 — aligned in-range write/read round-trip -/

/-- Success shape of the shared multi-byte read. -/
theorem guest_mem_read_n_ok (n : Nat) (memory : guest_memory) (gpa : Nat)
    (hcond : ¬ gpa > (memory.data.length + (2 ^ 64 - n)) % 2 ^ 64)
    (hal : gpa &&& (n - 1) = 0) :
    guest_mem_read_n n memory gpa =
      (.ok, some (guest_mem_swap n (fromBytesLE ((memory.data.drop gpa).take n)))) := by
  rw [guest_mem_read_n, if_neg hcond, if_neg (by simp [hal])]

/-- Round-trip of the shared multi-byte accessor shape: an aligned,
in-range write followed by a read at the same address returns the value. -/
theorem guest_mem_n_roundtrip (n : Nat) (memory : guest_memory) (gpa v : Nat)
    (hn : 0 < n) (hn64 : n ≤ 2 ^ 64) (hsz : memory.data.length < 2 ^ 64)
    (hal : gpa &&& (n - 1) = 0) (hb : gpa + n ≤ memory.data.length)
    (hv : v < 256 ^ n) :
    (guest_mem_write_n n memory gpa v).1 = .ok ∧
    guest_mem_read_n n (guest_mem_write_n n memory gpa v).2 gpa = (.ok, some v) := by
  have hcond : ¬ gpa > (memory.data.length + (2 ^ 64 - n)) % 2 ^ 64 := by
    have hkey : (memory.data.length + (2 ^ 64 - n)) % 2 ^ 64 = memory.data.length - n := by
      omega
    rw [hkey]; omega
  have hwrite : guest_mem_write_n n memory gpa v =
      (.ok, ⟨memory.data.take gpa ++ toBytesLE n (guest_mem_swap n v)
             ++ memory.data.drop (gpa + n)⟩) := by
    rw [guest_mem_write_n, if_neg hcond, if_neg (by simp [hal])]
  have htake_len : (memory.data.take gpa).length = gpa := by
    simp
    omega
  have hlen : (memory.data.take gpa ++ toBytesLE n (guest_mem_swap n v)
      ++ memory.data.drop (gpa + n)).length = memory.data.length := by
    simp [toBytesLE_length]
    omega
  have hcond2 : ¬ gpa > ((memory.data.take gpa ++ toBytesLE n (guest_mem_swap n v)
      ++ memory.data.drop (gpa + n)).length + (2 ^ 64 - n)) % 2 ^ 64 := by
    rw [hlen]; exact hcond
  have hslice : ((memory.data.take gpa ++ toBytesLE n (guest_mem_swap n v)
      ++ memory.data.drop (gpa + n)).drop gpa).take n
      = toBytesLE n (guest_mem_swap n v) := by
    rw [List.append_assoc, List.drop_left' htake_len,
      List.take_left' (toBytesLE_length n (guest_mem_swap n v))]
  refine ⟨by rw [hwrite], ?_⟩
  rw [hwrite]
  rw [guest_mem_read_n_ok n ⟨memory.data.take gpa ++ toBytesLE n (guest_mem_swap n v)
      ++ memory.data.drop (gpa + n)⟩ gpa hcond2 hal]
  have hval : guest_mem_swap n (fromBytesLE (((memory.data.take gpa
      ++ toBytesLE n (guest_mem_swap n v)
      ++ memory.data.drop (gpa + n)).drop gpa).take n)) = v := by
    rw [hslice, fromBytesLE_toBytesLE]
    simp only [guest_mem_swap, host_guest_endian_differ, if_pos]
    rw [Nat.mod_eq_of_lt (bswap_lt n v), bswap_bswap n v hv]
  rw [hval]

/-- C6: for every descriptor of size at least `N` (`N ∈ {1,2,4,8}`), every
`N`-aligned `gpa` with `gpa + N ≤ size` and every `N`-byte value `v`,
`write_N(gpa, v)` succeeds and a subsequent `read_N(gpa)` succeeds returning
exactly `v`. -/
theorem guest_mem_write_read_roundtrip (memory : guest_memory) (gpa v : Nat)
    (hsz : memory.data.length < 2 ^ 64) :
    (gpa + 1 ≤ memory.data.length → v < 2 ^ 8 →
      (guest_mem_writeb memory gpa v).1 = .ok ∧
      guest_mem_readb (guest_mem_writeb memory gpa v).2 gpa = (.ok, some v)) ∧
    (gpa &&& 1 = 0 → gpa + 2 ≤ memory.data.length → v < 2 ^ 16 →
      (guest_mem_writew memory gpa v).1 = .ok ∧
      guest_mem_readw (guest_mem_writew memory gpa v).2 gpa = (.ok, some v)) ∧
    (gpa &&& 3 = 0 → gpa + 4 ≤ memory.data.length → v < 2 ^ 32 →
      (guest_mem_writel memory gpa v).1 = .ok ∧
      guest_mem_readl (guest_mem_writel memory gpa v).2 gpa = (.ok, some v)) ∧
    (gpa &&& 7 = 0 → gpa + 8 ≤ memory.data.length → v < 2 ^ 64 →
      (guest_mem_writeq memory gpa v).1 = .ok ∧
      guest_mem_readq (guest_mem_writeq memory gpa v).2 gpa = (.ok, some v)) := by
  refine ⟨fun hb hv => ?_, fun hal hb hv => ?_, fun hal hb hv => ?_, fun hal hb hv => ?_⟩
  · have hlt : gpa < memory.data.length := by omega
    have hwrite : guest_mem_writeb memory gpa v = (.ok, ⟨memory.data.set gpa v⟩) := by
      rw [guest_mem_writeb, if_neg (by omega)]
    refine ⟨by rw [hwrite], ?_⟩
    rw [hwrite]
    rw [guest_mem_readb, if_neg (by simp; omega)]
    have : (memory.data.set gpa v).getD gpa 0 = v := by
      rw [List.getD_eq_getElem _ _ (by simp; omega)]
      simp
    rw [this]
  · exact guest_mem_n_roundtrip 2 memory gpa v (by norm_num) (by norm_num) hsz hal hb
      (by norm_num at hv ⊢; omega)
  · exact guest_mem_n_roundtrip 4 memory gpa v (by norm_num) (by norm_num) hsz hal hb
      (by norm_num at hv ⊢; omega)
  · exact guest_mem_n_roundtrip 8 memory gpa v (by norm_num) (by norm_num) hsz hal hb
      (by norm_num at hv ⊢; omega)

/-- Witness for C6: on a 16-byte RAM, a 32-bit write of `0xCAFEBABE` at the
aligned address 4 reads back exactly. -/
theorem guest_mem_write_read_roundtrip_witness :
    (16 : Nat) < 2 ^ 64 ∧
    ((guest_mem_writel ⟨List.replicate 16 0⟩ 4 0xCAFEBABE).1 = .ok ∧
     guest_mem_readl (guest_mem_writel ⟨List.replicate 16 0⟩ 4 0xCAFEBABE).2 4
       = (.ok, some 0xCAFEBABE)) :=
  ⟨by norm_num,
   (guest_mem_write_read_roundtrip ⟨List.replicate 16 0⟩ 4 0xCAFEBABE
      (by norm_num)).2.2.1 (by decide) (by norm_num) (by norm_num)⟩

/-! ## C1 — TTBR selection by gva bit 63 (code bug)

The source classifies the address half with `if ((gva << 63) & 1)`.  A
64-bit *left* shift by 63 always has bit 0 clear, so the condition is false
for every gva and the TTBR1/T1SZ path is unreachable: translation never
depends on `ttbr1_el1`.  (The surrounding comments and the spec both call
for testing bit 63, i.e. `(gva >> 63) & 1`.) -/

/-- C1 (code bug evidence): the upper-half condition `(gva << 63) & 1` is
zero for every gva, and consequently `mmu_gva_to_gpa` is independent of
`ttbr1_el1`: for every vcpu, memory, gva — including every gva with bit 63
set — overwriting `ttbr1_el1` with an arbitrary value cannot change the
translation, contradicting the claim that such gvas walk from TTBR1. -/
theorem mmu_ttbr1_never_selected :
    (∀ gva : Nat, (((gva <<< 63) % 2 ^ 64) &&& 1) = 0) ∧
    (∀ (vcpu : pvm_vcpu) (memory : guest_memory) (gva x : Nat),
      mmu_gva_to_gpa { vcpu with ttbr1_el1 := x } memory gva
        = mmu_gva_to_gpa vcpu memory gva) := by
  have hsel : ∀ gva : Nat, (((gva <<< 63) % 2 ^ 64) &&& 1) = 0 := by
    intro gva
    rw [Nat.and_one_is_mod, Nat.shiftLeft_eq,
      Nat.mod_mod_of_dvd _ (by norm_num : (2 : ℕ) ∣ 2 ^ 64)]
    simp [Nat.mul_mod]
  refine ⟨hsel, fun vcpu memory gva x => ?_⟩
  have hsel2 : gva <<< 63 % 18446744073709551616 % 2 = 0 := by
    have h := hsel gva
    rw [Nat.and_one_is_mod] at h
    simpa using h
  by_cases hs : vcpu.sctlr_el1 &&& 1 = 0
  · simp [mmu_gva_to_gpa, hs]
  · simp [mmu_gva_to_gpa, hs]
    rw [hsel2]
    simp

/-! ## C8 — block descriptors hit a fatal assertion -/

/-- C8 (amended): whenever the walk loop reads a descriptor whose low two
bits are `0b01` (a block descriptor), `mmu_gva_to_gpa` dies on the fatal
`assert(!"Block descriptors are not supported")` — the process aborts —
rather than returning a non-fatal fault to the caller. -/
theorem mmu_walk_block_descriptor_asserts (memory : guest_memory)
    (gva offset_bits index_bits l0s l1s l2s l3s fuel table level : Nat)
    (hfuel : 0 < fuel) (hlevel : level ≤ 3)
    (hdesc : mmu_fetch_descriptor memory
        ((table + ((gva >>> mmu_level_shift l0s l1s l2s l3s level)
          &&& (2 ^ index_bits - 1)) * 8) % 2 ^ 64) &&& 3 = 1) :
    mmu_walk memory gva offset_bits index_bits l0s l1s l2s l3s fuel table level
      = .assertFail := by
  obtain ⟨f, rfl⟩ : ∃ f, fuel = f + 1 := ⟨fuel - 1, by omega⟩
  rw [mmu_walk]
  rw [if_neg (by omega : ¬ level > 3)]
  have h1 : mmu_fetch_descriptor memory
      ((table + ((gva >>> mmu_level_shift l0s l1s l2s l3s level)
        &&& (2 ^ index_bits - 1)) * 8) % 2 ^ 64) &&& 1 = 1 := by
    have h3 := hdesc
    have e : mmu_fetch_descriptor memory
        ((table + ((gva >>> mmu_level_shift l0s l1s l2s l3s level)
          &&& (2 ^ index_bits - 1)) * 8) % 2 ^ 64) &&& 1
        = (mmu_fetch_descriptor memory
        ((table + ((gva >>> mmu_level_shift l0s l1s l2s l3s level)
          &&& (2 ^ index_bits - 1)) * 8) % 2 ^ 64) &&& 3) &&& 1 := by
      rw [Nat.and_assoc, show (3 &&& 1 : Nat) = 1 from by decide]
    rw [e, h3]
    decide
  simp only [h1, hdesc]
  norm_num

/-- The 8-byte guest RAM holding a single descriptor whose value, after the
guest-endianness conversion of `guest_mem_readq`, is `1` (valid bit set,
low two bits `0b01`: a block descriptor). -/
def mem_block : guest_memory := ⟨[0, 0, 0, 0, 0, 0, 0, 1]⟩

/-- A vCPU with the MMU enabled, `T0SZ = 34` (30-bit VA space, starting the
4 KiB-granule walk at level 2), `TG0 = 0` (4 KiB granule), `ttbr0_el1 = 0`. -/
def vcpu_block : pvm_vcpu := { vcpu_reset with sctlr_el1 := 1, tcr_el1 := 34 }

/-- Witness for C8 (amended) at the concrete level-2 walk over `mem_block`. -/
theorem mmu_walk_block_descriptor_asserts_witness :
    (0 < 5 ∧ 2 ≤ 3 ∧
      mmu_fetch_descriptor mem_block
        ((0 + ((0 >>> mmu_level_shift 39 30 21 12 2) &&& (2 ^ 9 - 1)) * 8) % 2 ^ 64)
        &&& 3 = 1) ∧
    mmu_walk mem_block 0 12 9 39 30 21 12 5 0 2 = .assertFail :=
  ⟨⟨by norm_num, by norm_num, by decide⟩,
   mmu_walk_block_descriptor_asserts mem_block 0 12 9 39 30 21 12 5 0 2
     (by norm_num) (by norm_num) (by decide)⟩

/-- Counterexample to C8 as stated: on `vcpu_block` / `mem_block`, the walk
meets a block descriptor at non-final level 2 and the translation ends in
the fatal assertion (process abort), not in a non-fatal fault returned to
the caller. -/
theorem mmu_block_descriptor_counterexample :
    mmu_gva_to_gpa vcpu_block mem_block 0 = .assertFail ∧
    MmuResult.assertFail ≠ MmuResult.fault := by
  constructor
  · decide
  · decide

/-! ## C4 — registration keeps the registry sorted and disjoint -/

theorem mmio_lower_bound_le (l : List mmio_range) (key : mmio_range) :
    mmio_lower_bound l key ≤ l.length := by
  induction l with
  | nil => simp [mmio_lower_bound]
  | cons r rs ih =>
    rw [mmio_lower_bound]
    split_ifs
    · simpa using ih
    · simp

theorem mmio_lower_bound_prefix_lt (l : List mmio_range) (key : mmio_range)
    (j : Nat) (hj : j < mmio_lower_bound l key) (hj' : j < l.length) :
    l[j].gpa_base < key.gpa_base := by
  induction l generalizing j with
  | nil => simp at hj'
  | cons r rs ih =>
    rw [mmio_lower_bound] at hj
    split_ifs at hj with hr
    · cases j with
      | zero => simpa using hr
      | succ j' =>
        simp only [List.getElem_cons_succ]
        exact ih j' (by omega) (by simpa using hj')
    · omega

theorem mmio_lower_bound_stop_ge (l : List mmio_range) (key : mmio_range)
    (h : mmio_lower_bound l key < l.length) :
    key.gpa_base ≤ l[mmio_lower_bound l key].gpa_base := by
  induction l with
  | nil => simp at h
  | cons r rs ih =>
    by_cases hr : r.gpa_base < key.gpa_base
    · have he : mmio_lower_bound (r :: rs) key = mmio_lower_bound rs key + 1 := by
        simp [mmio_lower_bound, hr]
      rw [he] at h
      simp only [he, List.getElem_cons_succ]
      exact ih (by simpa using h)
    · have he : mmio_lower_bound (r :: rs) key = 0 := by
        simp [mmio_lower_bound, hr]
      simp only [he, List.getElem_cons_zero]
      exact Nat.le_of_not_lt hr

/-- One accepted or rejected `mmio_db_register` call preserves the registry
invariant, provided the new range is non-empty. -/
theorem mmio_db_register_preserves_inv (db : mmio_db) (range : mmio_range)
    (handler : mmio_handler) (hr : range.gpa_base < range.gpa_end)
    (hinv : mmio_db_inv db) :
    mmio_db_inv (mmio_db_register db range handler).2 := by
  obtain ⟨hlen, hwf, hpw⟩ := hinv
  rw [mmio_db_register]
  split_ifs with h1 h2
  · exact ⟨hlen, hwf, hpw⟩
  · exact ⟨hlen, hwf, hpw⟩
  · push_neg at h1 h2
    have hile : mmio_lower_bound db.address_ranges range ≤ db.address_ranges.length :=
      mmio_lower_bound_le _ _
    have hhle : mmio_lower_bound db.address_ranges range ≤ db.handlers.length := by
      rw [hlen]; exact hile
    refine ⟨?_, ?_, ?_⟩
    · show (db.handlers.insertIdx _ handler).length
        = (db.address_ranges.insertIdx _ range).length
      rw [List.length_insertIdx _ _ hhle, List.length_insertIdx _ _ hile, hlen]
    · intro s hs
      rcases (List.mem_insertIdx hile).mp hs with h | h
      · subst h; exact hr
      · exact hwf s h
    · show (db.address_ranges.insertIdx _ range).Pairwise _
      rw [List.pairwise_iff_getElem] at hpw ⊢
      intro p q hp hq hpq
      have hlen' : (db.address_ranges.insertIdx
          (mmio_lower_bound db.address_ranges range) range).length
          = db.address_ranges.length + 1 :=
        List.length_insertIdx _ _ hile
      rw [hlen'] at hp hq
      by_cases hqi : q < mmio_lower_bound db.address_ranges range
      · have hpl : p < db.address_ranges.length := by omega
        have hql : q < db.address_ranges.length := by omega
        rw [List.getElem_insertIdx_of_lt _ range _ p (by omega) hpl,
            List.getElem_insertIdx_of_lt _ range _ q hqi hql]
        exact hpw p q hpl hql hpq
      · by_cases hqe : q = mmio_lower_bound db.address_ranges range
        · have hpi : p < mmio_lower_bound db.address_ranges range := by omega
          have hpl : p < db.address_ranges.length := by omega
          have hpos : 0 < mmio_lower_bound db.address_ranges range := by omega
          have hpred : mmio_lower_bound db.address_ranges range - 1
              < db.address_ranges.length := by omega
          have hpredle : (db.address_ranges[mmio_lower_bound db.address_ranges range - 1]).gpa_end
              ≤ range.gpa_base := by
            have hx := h1 hpos
            rwa [List.getD_eq_getElem _ _ hpred] at hx
          subst hqe
          rw [List.getElem_insertIdx_of_lt _ range _ p hpi hpl,
              List.getElem_insertIdx_self _ range _ hile]
          by_cases hp1 : p = mmio_lower_bound db.address_ranges range - 1
          · subst hp1; exact hpredle
          · have hplt : p < mmio_lower_bound db.address_ranges range - 1 := by omega
            have h01 := hpw p (mmio_lower_bound db.address_ranges range - 1) hpl hpred hplt
            have hwfp := hwf _ (List.getElem_mem hpred)
            omega
        · obtain ⟨kq, rfl⟩ : ∃ k, q = mmio_lower_bound db.address_ranges range + k + 1 :=
            ⟨q - mmio_lower_bound db.address_ranges range - 1, by omega⟩
          have hkq : mmio_lower_bound db.address_ranges range + kq
              < db.address_ranges.length := by omega
          rw [List.getElem_insertIdx_add_succ _ range _ kq hkq]
          by_cases hpi : p < mmio_lower_bound db.address_ranges range
          · have hpl : p < db.address_ranges.length := by omega
            rw [List.getElem_insertIdx_of_lt _ range _ p hpi hpl]
            exact hpw p _ hpl hkq (by omega)
          · by_cases hpe : p = mmio_lower_bound db.address_ranges range
            · subst hpe
              rw [List.getElem_insertIdx_self _ range _ hile]
              have hilen : mmio_lower_bound db.address_ranges range
                  < db.address_ranges.length := by omega
              have hsucc : range.gpa_end
                  ≤ (db.address_ranges[mmio_lower_bound db.address_ranges range]).gpa_base := by
                have hx := h2 hilen
                rwa [List.getD_eq_getElem _ _ hilen] at hx
              rcases Nat.eq_zero_or_pos kq with hk0 | hk0
              · subst hk0
                simpa using hsucc
              · have hmid := hpw (mmio_lower_bound db.address_ranges range)
                  (mmio_lower_bound db.address_ranges range + kq) hilen hkq (by omega)
                have hwfm := hwf _ (List.getElem_mem hilen)
                omega
            · obtain ⟨kp, rfl⟩ : ∃ k, p = mmio_lower_bound db.address_ranges range + k + 1 :=
                ⟨p - mmio_lower_bound db.address_ranges range - 1, by omega⟩
              have hkp : mmio_lower_bound db.address_ranges range + kp
                  < db.address_ranges.length := by omega
              rw [List.getElem_insertIdx_add_succ _ range _ kp hkp]
              exact hpw _ _ hkp hkq (by omega)

/-- Folding register calls with non-empty ranges preserves the invariant. -/
theorem mmio_register_all_inv (calls : List (mmio_range × mmio_handler)) :
    ∀ db, (∀ c ∈ calls, c.1.gpa_base < c.1.gpa_end) → mmio_db_inv db →
      mmio_db_inv (mmio_register_all db calls) := by
  induction calls with
  | nil => intro db _ h; exact h
  | cons c cs ih =>
    intro db hc hdb
    have hstep : mmio_register_all db (c :: cs)
        = mmio_register_all (mmio_db_register db c.1 c.2).2 cs := rfl
    rw [hstep]
    exact ih _ (fun d hd => hc d (List.mem_cons_of_mem _ hd))
      (mmio_db_register_preserves_inv db c.1 c.2 (hc c (List.mem_cons_self _ _)) hdb)

/-- C4: starting from the empty registry, after any sequence of
`mmio_db_register` calls whose argument ranges satisfy
`gpa_base < gpa_end`, the stored ranges are strictly increasing by
`gpa_base` and pairwise disjoint as address intervals, and the parallel
`handlers` and `address_ranges` vectors have equal length. -/
theorem mmio_register_all_sorted_disjoint (calls : List (mmio_range × mmio_handler))
    (hc : ∀ c ∈ calls, c.1.gpa_base < c.1.gpa_end) :
    (mmio_register_all mmio_db_empty calls).address_ranges.Pairwise
      (fun a b => a.gpa_base < b.gpa_base ∧
        ∀ x : Nat, ¬ (mmio_contains a x ∧ mmio_contains b x)) ∧
    (mmio_register_all mmio_db_empty calls).handlers.length
      = (mmio_register_all mmio_db_empty calls).address_ranges.length := by
  have hinv : mmio_db_inv (mmio_register_all mmio_db_empty calls) :=
    mmio_register_all_inv calls mmio_db_empty hc ⟨rfl, by simp [mmio_db_empty], by simp [mmio_db_empty]⟩
  obtain ⟨hlen, hwf, hpw⟩ := hinv
  refine ⟨?_, hlen⟩
  refine List.Pairwise.imp_of_mem ?_ hpw
  intro a b ha hb hab
  have hwa := hwf a ha
  refine ⟨by omega, ?_⟩
  intro x hx
  obtain ⟨hxa, hxb⟩ := hx
  simp only [mmio_contains] at hxa hxb
  omega

/-- A two-call registration sequence (deliberately given out of order). -/
def calls0 : List (mmio_range × mmio_handler) :=
  [(⟨0x9000, 0x9010⟩, ⟨some 1, some 2⟩), (⟨0x100, 0x200⟩, ⟨none, some 3⟩)]

/-- Witness for C4 on the concrete two-call sequence. -/
theorem mmio_register_all_sorted_disjoint_witness :
    (∀ c ∈ calls0, c.1.gpa_base < c.1.gpa_end) ∧
    ((mmio_register_all mmio_db_empty calls0).address_ranges.Pairwise
      (fun a b => a.gpa_base < b.gpa_base ∧
        ∀ x : Nat, ¬ (mmio_contains a x ∧ mmio_contains b x)) ∧
     (mmio_register_all mmio_db_empty calls0).handlers.length
      = (mmio_register_all mmio_db_empty calls0).address_ranges.length) :=
  ⟨by decide, mmio_register_all_sorted_disjoint calls0 (by decide)⟩

/-! ## C5 — dispatch finds exactly the containing range -/

theorem mmio_upper_bound_le (l : List mmio_range) (gpa : Nat) :
    mmio_upper_bound l gpa ≤ l.length := by
  induction l with
  | nil => simp [mmio_upper_bound]
  | cons r rs ih =>
    rw [mmio_upper_bound]
    split_ifs
    · simp
    · simpa using ih

/-- On a well-formed sorted registry, the binary search lands one past the
unique range containing `gpa`. -/
theorem mmio_upper_bound_of_contains (l : List mmio_range) (gpa : Nat)
    (hwf : ∀ r ∈ l, r.gpa_base < r.gpa_end)
    (hpw : l.Pairwise (fun a b => a.gpa_end ≤ b.gpa_base))
    (k : Nat) (hk : k < l.length) (hc : mmio_contains l[k] gpa) :
    mmio_upper_bound l gpa = k + 1 := by
  induction l generalizing k with
  | nil => simp at hk
  | cons r rs ih =>
    obtain ⟨hhead, htail⟩ := List.pairwise_cons.mp hpw
    cases k with
    | zero =>
      have hc' : mmio_contains r gpa := by simpa using hc
      obtain ⟨hc1, hc2⟩ := hc'
      have he : mmio_upper_bound (r :: rs) gpa = mmio_upper_bound rs gpa + 1 := by
        simp [mmio_upper_bound, Nat.not_lt_of_le hc1]
      rw [he]
      cases rs with
      | nil => simp [mmio_upper_bound]
      | cons r' rs' =>
        have hrel : r.gpa_end ≤ r'.gpa_base := hhead r' (List.mem_cons_self _ _)
        have : mmio_upper_bound (r' :: rs') gpa = 0 := by
          simp [mmio_upper_bound]
          omega
        rw [this]
    | succ k' =>
      have hk' : k' < rs.length := by simpa using hk
      have hck : mmio_contains rs[k'] gpa := by simpa using hc
      have hrel : r.gpa_end ≤ (rs[k']).gpa_base :=
        hhead _ (List.getElem_mem hk')
      have hrwf : r.gpa_base < r.gpa_end := hwf r (List.mem_cons_self _ _)
      have hc1 : rs[k'].gpa_base ≤ gpa := hck.1
      have he : mmio_upper_bound (r :: rs) gpa = mmio_upper_bound rs gpa + 1 := by
        simp [mmio_upper_bound]
        omega
      rw [he, ih (fun s hs => hwf s (List.mem_cons_of_mem _ hs)) htail k' hk' hck]

/-- C5: on a registry satisfying the invariant, dispatch on a `gpa` inside a
registered range invokes exactly that range's handler for the requested
direction and returns success, returns `EACCESS_DENIED` when the handler
slot for that direction is NULL, and returns `ENOT_HANDLED` for every `gpa`
lying in no registered range. -/
theorem mmio_dispatch_correct (db : mmio_db) (gpa : Nat)
    (run_write run_read : Nat → Nat → List Nat → Nat → List Nat)
    (data : List Nat) (len : Nat) (hinv : mmio_db_inv db) :
    (∀ k (hk : k < db.address_ranges.length) (hkh : k < db.handlers.length),
      mmio_contains db.address_ranges[k] gpa →
      ((db.handlers[k].write = none →
          mmio_db_dispatch_write db gpa run_write data len
            = (EACCESS_DENIED, data, none)) ∧
       (∀ hid, db.handlers[k].write = some hid →
          mmio_db_dispatch_write db gpa run_write data len
            = (MMIO_SUCCESS, run_write hid gpa data len, some hid)) ∧
       (db.handlers[k].read = none →
          mmio_db_dispatch_read db gpa run_read data len
            = (EACCESS_DENIED, data, none)) ∧
       (∀ hid, db.handlers[k].read = some hid →
          mmio_db_dispatch_read db gpa run_read data len
            = (MMIO_SUCCESS, run_read hid gpa data len, some hid)))) ∧
    ((∀ r ∈ db.address_ranges, ¬ mmio_contains r gpa) →
      mmio_db_dispatch_write db gpa run_write data len = (ENOT_HANDLED, data, none) ∧
      mmio_db_dispatch_read db gpa run_read data len = (ENOT_HANDLED, data, none)) := by
  obtain ⟨hlen, hwf, hpw⟩ := hinv
  constructor
  · intro k hk hkh hc
    have hub : mmio_upper_bound db.address_ranges gpa = k + 1 :=
      mmio_upper_bound_of_contains _ gpa hwf hpw k hk hc
    have hne : ¬ mmio_upper_bound db.address_ranges gpa = 0 := by omega
    have hget : db.address_ranges.getD
        (mmio_upper_bound db.address_ranges gpa - 1) ⟨0, 0⟩
        = db.address_ranges[k] := by
      rw [hub, Nat.add_sub_cancel, List.getD_eq_getElem _ _ hk]
    have hgeth : db.handlers.getD
        (mmio_upper_bound db.address_ranges gpa - 1) ⟨none, none⟩
        = db.handlers[k] := by
      rw [hub, Nat.add_sub_cancel, List.getD_eq_getElem _ _ hkh]
    have hcc : (db.address_ranges.getD
        (mmio_upper_bound db.address_ranges gpa - 1) ⟨0, 0⟩).gpa_base ≤ gpa ∧
        gpa < (db.address_ranges.getD
        (mmio_upper_bound db.address_ranges gpa - 1) ⟨0, 0⟩).gpa_end := by
      rw [hget]; exact hc
    refine ⟨?_, ?_, ?_, ?_⟩
    · intro hwnone
      simp only [mmio_db_dispatch_write, if_neg hne, if_pos hcc, hgeth, hwnone]
    · intro hid hwsome
      simp only [mmio_db_dispatch_write, if_neg hne, if_pos hcc, hgeth, hwsome]
    · intro hrnone
      simp only [mmio_db_dispatch_read, if_neg hne, if_pos hcc, hgeth, hrnone]
    · intro hid hrsome
      simp only [mmio_db_dispatch_read, if_neg hne, if_pos hcc, hgeth, hrsome]
  · intro hno
    by_cases hz : mmio_upper_bound db.address_ranges gpa = 0
    · constructor
      · simp only [mmio_db_dispatch_write, if_pos hz]
      · simp only [mmio_db_dispatch_read, if_pos hz]
    · have hlt : mmio_upper_bound db.address_ranges gpa - 1
          < db.address_ranges.length := by
        have := mmio_upper_bound_le db.address_ranges gpa
        omega
      have hnc : ¬ ((db.address_ranges.getD
          (mmio_upper_bound db.address_ranges gpa - 1) ⟨0, 0⟩).gpa_base ≤ gpa ∧
          gpa < (db.address_ranges.getD
          (mmio_upper_bound db.address_ranges gpa - 1) ⟨0, 0⟩).gpa_end) := by
        rw [List.getD_eq_getElem _ _ hlt]
        exact hno _ (List.getElem_mem hlt)
      constructor
      · simp only [mmio_db_dispatch_write, if_neg hz, if_neg hnc]
      · simp only [mmio_db_dispatch_read, if_neg hz, if_neg hnc]

/-- A one-range registry with both handler callbacks present. -/
def db0 : mmio_db :=
  ⟨[⟨some 1, some 2⟩], [⟨0x9000, 0x9010⟩]⟩

/-- A fixed handler semantics used by the dispatch witness. -/
def run0 : Nat → Nat → List Nat → Nat → List Nat :=
  fun hid gpa d _ => hid :: gpa :: d

/-- Witness for C5 on `db0` at the in-range address `0x9004`. -/
theorem mmio_dispatch_correct_witness :
    mmio_db_inv db0 ∧
    mmio_contains db0.address_ranges[0] 0x9004 ∧
    mmio_db_dispatch_write db0 0x9004 run0 [7] 1
      = (MMIO_SUCCESS, run0 2 0x9004 [7] 1, some 2) ∧
    mmio_db_dispatch_read db0 0x9004 run0 [7] 1
      = (MMIO_SUCCESS, run0 1 0x9004 [7] 1, some 1) :=
  have hinv : mmio_db_inv db0 := ⟨rfl, by simp [db0], by simp [db0]⟩
  have hcont : mmio_contains db0.address_ranges[0] 0x9004 := by
    constructor <;> norm_num [db0]
  ⟨hinv, hcont,
   (((mmio_dispatch_correct db0 0x9004 run0 run0 [7] 1 hinv).1 0
      (by norm_num [db0]) (by norm_num [db0]) hcont).2.1) 2 rfl,
   (((mmio_dispatch_correct db0 0x9004 run0 run0 [7] 1 hinv).1 0
      (by norm_num [db0]) (by norm_num [db0]) hcont).2.2.2) 1 rfl⟩

/-- Witness for C10 on `db0` at the out-of-range address `0x100`:
the write dispatcher reports `ENOT_HANDLED` and leaves the buffer alone. -/
theorem mmio_dispatch_failure_frame_witness :
    ((mmio_db_dispatch_write db0 0x100 run0 [7] 1).1 = ENOT_HANDLED ∨
     (mmio_db_dispatch_write db0 0x100 run0 [7] 1).1 = EACCESS_DENIED) ∧
    ((mmio_db_dispatch_write db0 0x100 run0 [7] 1).2.1 = [7] ∧
     (mmio_db_dispatch_write db0 0x100 run0 [7] 1).2.2 = none) :=
  have hs : (mmio_db_dispatch_write db0 0x100 run0 [7] 1).1 = ENOT_HANDLED ∨
      (mmio_db_dispatch_write db0 0x100 run0 [7] 1).1 = EACCESS_DENIED := by
    left; decide
  ⟨hs, (mmio_dispatch_failure_frame db0 0x100 run0 run0 [7] 1).1 hs⟩

end Pound
